import Mathlib

/-!
Verification of the transaction admission and storage key layer of an
Ethereum-compatible engine contract.  Definitions are shallow embeddings of
the Rust sources (`src/lib.rs` contract module and `src/storage.rs`); byte
strings are `List Nat` with each element a byte value, machine integers are
`Nat` with explicit bounds where relevant.
-/

namespace AuroraEngine

/-! ## Storage key codec (`src/storage.rs`) -/

/-- Embeds `VersionPrefix::V1 = 0x7` from `storage.rs`. -/
def versionPrefixV1 : Nat := 0x7

/-- Embeds the `KeyPrefix` enum from `storage.rs` (discriminants 0x0..0x6). -/
inductive KeyPrefix
  | Config
  | Nonce
  | Balance
  | Code
  | Storage
  | RelayerEvmAddressMap
  | EthConnector
deriving DecidableEq, Repr

/-- Discriminant of each `KeyPrefix` variant, as assigned in `storage.rs`
(`Config = 0x0` through `EthConnector = 0x6`); this is what `prefix as u8`
evaluates to in the Rust encoders. -/
def KeyPrefix.toU8 : KeyPrefix → Nat
  | .Config => 0x0
  | .Nonce => 0x1
  | .Balance => 0x2
  | .Code => 0x3
  | .Storage => 0x4
  | .RelayerEvmAddressMap => 0x5
  | .EthConnector => 0x6

/-- Embeds `impl From<KeyPrefixU8> for KeyPrefix` from `storage.rs`.  The Rust
code hits `unreachable!()` (a panic, i.e. divergence) on any byte `>= 0x7`;
the fallible embedding returns `none` there. -/
def keyPrefixFromU8 : Nat → Option KeyPrefix
  | 0x0 => some .Config
  | 0x1 => some .Nonce
  | 0x2 => some .Balance
  | 0x3 => some .Code
  | 0x4 => some .Storage
  | 0x5 => some .RelayerEvmAddressMap
  | 0x6 => some .EthConnector
  | _ => none

/-- Embeds `bytes_to_key`: `[&[VersionPrefix::V1 as u8], &[prefix as u8], bytes].concat()`. -/
def bytes_to_key (kp : KeyPrefix) (bytes : List Nat) : List Nat :=
  [versionPrefixV1] ++ [kp.toU8] ++ bytes

/-- Embeds `address_to_key`: a 22-byte array with byte 0 the version, byte 1
the prefix discriminant and bytes 2..22 the 20 address bytes. -/
def address_to_key (kp : KeyPrefix) (address : List Nat) : List Nat :=
  versionPrefixV1 :: kp.toU8 :: address

/-- Little-endian byte decomposition produced by Rust `u32::to_le_bytes`. -/
def u32_to_le_bytes (x : Nat) : List Nat :=
  [x % 256, x / 256 % 256, x / 65536 % 256, x / 16777216 % 256]

/-- Embeds `storage_to_key`: a 54-byte array `version ‖ Storage ‖ address(20) ‖ key(32)`. -/
def storage_to_key (address key : List Nat) : List Nat :=
  versionPrefixV1 :: KeyPrefix.Storage.toU8 :: (address ++ key)

/-- Embeds `storage_to_key_nonced`: a 58-byte array
`version ‖ Storage ‖ address(20) ‖ storage_nonce_le(4) ‖ key(32)`. -/
def storage_to_key_nonced (address : List Nat) (storage_nonce : Nat)
    (key : List Nat) : List Nat :=
  versionPrefixV1 :: KeyPrefix.Storage.toU8 ::
    (address ++ u32_to_le_bytes storage_nonce ++ key)

/-! Helper lemmas about the codec. -/

theorem KeyPrefix.toU8_inj : ∀ {p q : KeyPrefix}, p.toU8 = q.toU8 → p = q := by
  intro p q h
  cases p <;> cases q <;> first | rfl | (simp [KeyPrefix.toU8] at h)

theorem u32_to_le_bytes_length (x : Nat) : (u32_to_le_bytes x).length = 4 := rfl

theorem u32_to_le_bytes_inj {x y : Nat} (hx : x < 4294967296)
    (hy : y < 4294967296) (h : u32_to_le_bytes x = u32_to_le_bytes y) :
    x = y := by
  simp only [u32_to_le_bytes, List.cons.injEq, and_true] at h
  omega

/-! ## Engine state and contract entry points (`src/lib.rs`, `mod contract`) -/

/-- An account id or byte string of the host chain, as raw bytes. -/
abbrev HostBytes := List Nat

/-- A 20-byte Ethereum-style address, as raw bytes (well-formedness
`length = 20` is carried as a hypothesis where a theorem needs it). -/
abbrev EthAddress := List Nat

/-- Embeds `EngineState` as read by `Engine::get_state` in the entry points.
Only the fields the entry points in `lib.rs` consult are modelled:
`owner_id` and `bridge_prover_id` as raw bytes, `chain_id` as the `U256`
value of its 32 bytes, and `upgrade_delay_blocks` as a `u64` value.  An
uninitialized contract reads a state whose `owner_id` is empty
(`state.owner_id.is_empty()` in `new`). -/
structure EngineStateM where
  owner_id : HostBytes
  bridge_prover_id : HostBytes
  chain_id : Nat
  upgrade_delay_blocks : Nat
deriving DecidableEq

/-- The `panic_utf8` error codes raised by the entry points of `lib.rs`. -/
inductive ContractError
  | invalidTx
  | invalidChainId
  | invalidEcdsaSignature
  | incorrectNonce
  | metaTxParse
  | notAllowed
  | argParse
  | tooEarly
  | noUpgrade
deriving DecidableEq

/-- One observable state effect of an admitted transaction, in the order the
entry point performs them.  `nonceGate` stands for the successful passage of
`Engine::check_nonce`; `setNonce` is the explicit `Engine::set_nonce` call on
the transfer path of `submit`; transfer, call and deploy are the dispatched
`Engine::transfer`, `Engine::call` and `Engine::deploy_code` effects. -/
inductive EngineAction
  | nonceGate (sender : EthAddress) (nonce : Nat)
  | setNonce (address : EthAddress) (nonce : Nat)
  | transfer (sender receiver : EthAddress) (value : Nat)
  | evmCall (sender receiver : EthAddress) (value : Nat) (data : List Nat)
  | evmDeploy (sender : EthAddress) (value : Nat) (data : List Nat)
deriving DecidableEq

/-- Embeds the fields of `EthTransaction` that `submit` consumes:
`nonce`, `to`, `value` and `data` (gas fields are never read there).
The source field `to` is a reserved word in Lean, hence `to_address`. -/
structure EthTransactionM where
  nonce : Nat
  to_address : Option EthAddress
  value : Nat
  data : List Nat
deriving DecidableEq

/-- Embeds a decoded `EthSignedTransaction` as `submit` consumes it:
the payload transaction, the outcome of `signed_transaction.chain_id()`
(the chain id embedded in the signature, when present, as a `u64` value)
and the outcome of `signed_transaction.sender()` (ECDSA recovery, `None`
when the signature is invalid or non-recoverable). -/
structure EthSignedTransactionM where
  transaction : EthTransactionM
  chain_id : Option Nat
  sender : Option EthAddress
deriving DecidableEq

/-- The outcome of one entry-point invocation: the list of state effects it
performed, in order, and the `panic_utf8` code when it aborted.  An aborted
invocation commits nothing on the host, so a rejection with an empty action
list is exactly "no state mutation". -/
structure Outcome where
  actions : List EngineAction
  err : Option ContractError
deriving DecidableEq

/-- Modelled from the spec: `Engine::check_nonce` lives in `engine.rs`,
which is not among the provided sources (only its call sites in `lib.rs`
are).  Per the spec, `check_and_increment_nonce(address, provided_nonce)`
fails with a stale-nonce error when `provided_nonce != current_nonce` and
on success persists `current_nonce + 1` and returns it.  The nonce store is
a total map from addresses to current nonces (absent accounts read 0). -/
def check_nonce (nonces : EthAddress → Nat) (address : EthAddress)
    (provided : Nat) : Except ContractError (Nat × (EthAddress → Nat)) :=
  let current := nonces address
  if provided ≠ current then .error .incorrectNonce
  else .ok (current + 1, fun a => if a = address then current + 1 else nonces a)

/-- The tail of `submit` from the sender recovery on (`lib.rs` lines
204-238): recover the sender, run `Engine::check_nonce`, then dispatch on
the transaction shape — `to = Some(receiver)` with empty data is a plain
balance transfer preceded by an explicit `Engine::set_nonce`; non-empty
data is `Engine::call`; `to = None` is `Engine::deploy_code`. -/
def submitAuthed (nonces : EthAddress → Nat) (tx : EthSignedTransactionM) :
    Outcome :=
  match tx.sender with
  | none => ⟨[], some .invalidEcdsaSignature⟩
  | some sender =>
    if tx.transaction.nonce ≠ nonces sender then ⟨[], some .incorrectNonce⟩
    else
      let next_nonce := nonces sender + 1
      match tx.transaction.to_address with
      | some receiver =>
        if tx.transaction.data = [] then
          ⟨[.nonceGate sender tx.transaction.nonce,
            .setNonce sender next_nonce,
            .transfer sender receiver tx.transaction.value], none⟩
        else
          ⟨[.nonceGate sender tx.transaction.nonce,
            .evmCall sender receiver tx.transaction.value tx.transaction.data],
           none⟩
      | none =>
        ⟨[.nonceGate sender tx.transaction.nonce,
          .evmDeploy sender tx.transaction.value tx.transaction.data], none⟩

/-- Embeds the `submit` entry point (`lib.rs` lines 186-239) over the RLP
decode outcome: `None` models a failed `EthSignedTransaction::decode`
(`ERR_INVALID_TX`); then the chain id embedded in the signature, when
present, is compared against the configured chain id
(`ERR_INVALID_CHAIN_ID`); the remainder is `submitAuthed`. -/
def submit (state : EngineStateM) (nonces : EthAddress → Nat)
    (decoded : Option EthSignedTransactionM) : Outcome :=
  match decoded with
  | none => ⟨[], some .invalidTx⟩
  | some tx =>
    match tx.chain_id with
    | some cid =>
      if cid ≠ state.chain_id then ⟨[], some .invalidChainId⟩
      else submitAuthed nonces tx
    | none => submitAuthed nonces tx

/-- Modelled from the spec: the EIP-712-style domain separator computed by
`near_erc712_domain` in `meta_parsing.rs`, which is not among the provided
sources.  Per the spec it is derived deterministically from the scheme
name, version and the configured chain id; the model keeps the one input
the call site in `lib.rs` passes, the chain id, so the value is a
deterministic function of it. -/
structure NearDomain where
  chain_id : Nat
deriving DecidableEq

/-- Builds the domain separator from a chain id, as the call
`near_erc712_domain(U256::from(state.chain_id))` does in `meta_call`. -/
def near_erc712_domain (chain_id : Nat) : NearDomain := ⟨chain_id⟩

/-- Embeds `MetaCallArgs` as `meta_call` consumes it: the recovered
`sender`, the target `contract_address`, the attached `value`, the
sender-declared `nonce` and the call `input`. -/
structure MetaCallArgsM where
  sender : EthAddress
  contract_address : EthAddress
  value : Nat
  nonce : Nat
  input : List Nat
deriving DecidableEq

/-- Embeds the `meta_call` entry point (`lib.rs` lines 242-269).  The
domain separator is computed inside the invocation from the current
state's chain id; `parse_meta_call` (in `meta_parsing.rs`, outside the
provided sources) is abstracted as a function `parse` of exactly the three
arguments the source passes it: the domain separator, the current account
id and the raw input.  A parse or authentication failure is `none` and
aborts with `ERR_META_TX_PARSE`; then `Engine::check_nonce` gates the
nonce and the call is dispatched to the interpreter. -/
def meta_call (state : EngineStateM) (nonces : EthAddress → Nat)
    (parse : NearDomain → HostBytes → List Nat → Option MetaCallArgsM)
    (current_account_id : HostBytes) (input : List Nat) : Outcome :=
  let domain_separator := near_erc712_domain state.chain_id
  match parse domain_separator current_account_id input with
  | none => ⟨[], some .metaTxParse⟩
  | some args =>
    if args.nonce ≠ nonces args.sender then ⟨[], some .incorrectNonce⟩
    else
      ⟨[.nonceGate args.sender args.nonce,
        .evmCall args.sender args.contract_address args.value args.input],
       none⟩

/-- Embeds `require_owner_only` (`lib.rs` lines 455-459): panic with
`ERR_NOT_ALLOWED` unless the predecessor account id equals the configured
owner id, byte for byte. -/
def require_owner_only (state : EngineStateM) (predecessor_account_id : HostBytes) :
    Option ContractError :=
  if state.owner_id ≠ predecessor_account_id then some .notAllowed else none

/-- Embeds `NewCallArgs`, the argument struct of the `new` entry point.
The struct itself is declared in `parameters.rs`, outside the provided
sources; its fields are the spec's `EngineConfig`:
`{owner_id, bridge_prover_id, chain_id, upgrade_delay_blocks}`. -/
structure NewCallArgsM where
  chain_id : Nat
  owner_id : HostBytes
  bridge_prover_id : HostBytes
  upgrade_delay_blocks : Nat
deriving DecidableEq

/-- Modelled from the spec: the conversion `args.into()` from `NewCallArgs`
to `EngineState` used by `new` lives in `engine.rs`, outside the provided
sources; per the spec the initialization sets the engine configuration
from the parsed arguments, field for field. -/
def newCallArgsIntoState (args : NewCallArgsM) : EngineStateM :=
  ⟨args.owner_id, args.bridge_prover_id, args.chain_id, args.upgrade_delay_blocks⟩

/-- Embeds the `new` entry point (`lib.rs` lines 90-97): read the current
state; when its `owner_id` is non-empty, `require_owner_only` gates the
call; then the input is parsed as `NewCallArgs` (`none` models a Borsh
parse failure, `ERR_ARG_PARSE`) and the state is replaced by the parsed
configuration.  The returned state is the state after the invocation; an
`error` outcome commits nothing. -/
def newContract (state : EngineStateM) (predecessor_account_id : HostBytes)
    (args : Option NewCallArgsM) : Except ContractError EngineStateM :=
  if state.owner_id ≠ [] then
    match require_owner_only state predecessor_account_id with
    | some e => .error e
    | none =>
      match args with
      | none => .error .argParse
      | some a => .ok (newCallArgsIntoState a)
  else
    match args with
    | none => .error .argParse
    | some a => .ok (newCallArgsIntoState a)

/-- Embeds the `deploy_upgrade` entry point (`lib.rs` lines 147-154).
`staged` is the content of the upgrade staging record: the staged block
index written by `stage_upgrade` (read back by `sdk::read_u64(CODE_STAGE_KEY)`,
`none` when nothing is staged) together with the staged code blob under
`CODE_KEY`.  The timing guard is from the source:
`if sdk::block_index() <= index + state.upgrade_delay_blocks` panic
`ERR_NOT_ALLOWED:TOO_EARLY`.  The success effect (`sdk::self_deploy(CODE_KEY)`,
in `sdk.rs` outside the provided sources) is modelled from the spec: it
replaces the running contract code with the staged blob, which the `ok`
result returns as the new running code. -/
def deploy_upgrade (state : EngineStateM) (staged : Option (Nat × List Nat))
    (current_block : Nat) : Except ContractError (List Nat) :=
  match staged with
  | none => .error .noUpgrade
  | some (index, staged_code) =>
    if current_block ≤ index + state.upgrade_delay_blocks then .error .tooEarly
    else .ok staged_code

/-! ## Claim theorems -/

/-- C10: the public conversion `From<u8> for KeyPrefix` returns the variant
whose discriminant equals the input for every byte in `0..=6` (so converting
a prefix to `u8` and back is the identity), and diverges (`unreachable!`,
here `none`) on every byte `>= 7`: it is not total over `u8`. -/
theorem keyPrefix_from_u8_partial :
    (∀ p : KeyPrefix, keyPrefixFromU8 p.toU8 = some p) ∧
    (∀ v : Nat, v ≤ 6 → ∃ p : KeyPrefix, keyPrefixFromU8 v = some p ∧ p.toU8 = v) ∧
    (∀ v : Nat, 7 ≤ v → keyPrefixFromU8 v = none) := by
  refine ⟨fun p => by cases p <;> rfl, fun v hv => ?_, fun v hv => ?_⟩
  · interval_cases v
    · exact ⟨.Config, rfl, rfl⟩
    · exact ⟨.Nonce, rfl, rfl⟩
    · exact ⟨.Balance, rfl, rfl⟩
    · exact ⟨.Code, rfl, rfl⟩
    · exact ⟨.Storage, rfl, rfl⟩
    · exact ⟨.RelayerEvmAddressMap, rfl, rfl⟩
    · exact ⟨.EthConnector, rfl, rfl⟩
  · obtain ⟨n, rfl⟩ : ∃ n, v = n + 7 := ⟨v - 7, by omega⟩
    rfl

/-- C7: the key encoders produce exactly the documented fixed layouts with
leading version byte `0x7`: `address_to_key` the 22-byte key
`0x7 ‖ category ‖ address(20)`; `storage_to_key` the 54-byte key
`0x7 ‖ Storage(=0x4) ‖ address(20) ‖ slot(32)`; `storage_to_key_nonced` the
58-byte key `0x7 ‖ Storage ‖ address(20) ‖ generation as 4 little-endian
bytes ‖ slot(32)`. -/
theorem key_encoders_fixed_layout (kp : KeyPrefix) (address key : List Nat)
    (g : Nat) (ha : address.length = 20) (hk : key.length = 32) :
    address_to_key kp address = 7 :: kp.toU8 :: address ∧
    (address_to_key kp address).length = 22 ∧
    storage_to_key address key = 7 :: 4 :: (address ++ key) ∧
    (storage_to_key address key).length = 54 ∧
    storage_to_key_nonced address g key =
      7 :: 4 :: (address ++
        [g % 256, g / 256 % 256, g / 65536 % 256, g / 16777216 % 256] ++ key) ∧
    (storage_to_key_nonced address g key).length = 58 := by
  refine ⟨rfl, ?_, rfl, ?_, rfl, ?_⟩ <;>
    simp [address_to_key, storage_to_key, storage_to_key_nonced,
      u32_to_le_bytes, ha, hk]

/-- Closed instance of C7 at a concrete address, slot and generation. -/
theorem key_encoders_fixed_layout_witness :
    (address_to_key .Nonce (List.replicate 20 3)).length = 22 ∧
    (storage_to_key (List.replicate 20 3) (List.replicate 32 9)).length = 54 ∧
    (storage_to_key_nonced (List.replicate 20 3) 5 (List.replicate 32 9)).length = 58 := by
  have h := key_encoders_fixed_layout .Nonce (List.replicate 20 3)
    (List.replicate 32 9) 5 (by decide) (by decide)
  exact ⟨h.2.1, h.2.2.2.1, h.2.2.2.2.2⟩

/-- C6: raw keys never collide across the encoders.  Distinct categories
give distinct keys for all suffixes (byte 1 is the category discriminant),
and within one category distinct suffixes give distinct keys: `bytes_to_key`
and `address_to_key` are injective in (category, suffix); the two `Storage`
encoders are injective in their structured inputs (given the fixed
20/32-byte widths and a `u32` generation) and never collide with each other
(54-byte versus 58-byte keys) nor with other-category keys. -/
theorem raw_key_disjointness :
    (∀ (p1 p2 : KeyPrefix) (s1 s2 : List Nat), p1 ≠ p2 →
      bytes_to_key p1 s1 ≠ bytes_to_key p2 s2) ∧
    (∀ (kp : KeyPrefix) (s1 s2 : List Nat), s1 ≠ s2 →
      bytes_to_key kp s1 ≠ bytes_to_key kp s2) ∧
    (∀ (p1 p2 : KeyPrefix) (a1 a2 : List Nat), p1 ≠ p2 →
      address_to_key p1 a1 ≠ address_to_key p2 a2) ∧
    (∀ (kp : KeyPrefix) (a1 a2 : List Nat), a1 ≠ a2 →
      address_to_key kp a1 ≠ address_to_key kp a2) ∧
    (∀ (kp : KeyPrefix) (a1 a2 k : List Nat), kp ≠ .Storage →
      address_to_key kp a1 ≠ storage_to_key a2 k) ∧
    (∀ (kp : KeyPrefix) (a1 a2 k : List Nat) (g : Nat), kp ≠ .Storage →
      address_to_key kp a1 ≠ storage_to_key_nonced a2 g k) ∧
    (∀ a1 a2 k1 k2 : List Nat, a1.length = 20 → a2.length = 20 →
      (a1 ≠ a2 ∨ k1 ≠ k2) → storage_to_key a1 k1 ≠ storage_to_key a2 k2) ∧
    (∀ (a1 a2 k1 k2 : List Nat) (g1 g2 : Nat), a1.length = 20 →
      a2.length = 20 → g1 < 4294967296 → g2 < 4294967296 →
      (a1 ≠ a2 ∨ g1 ≠ g2 ∨ k1 ≠ k2) →
      storage_to_key_nonced a1 g1 k1 ≠ storage_to_key_nonced a2 g2 k2) ∧
    (∀ (a1 a2 k1 k2 : List Nat) (g : Nat), a1.length = 20 → a2.length = 20 →
      k1.length = 32 → k2.length = 32 →
      storage_to_key a1 k1 ≠ storage_to_key_nonced a2 g k2) := by
  refine ⟨?_, ?_, ?_, ?_, ?_, ?_, ?_, ?_, ?_⟩
  · intro p1 p2 s1 s2 hp h
    simp only [bytes_to_key, List.cons_append, List.nil_append,
      List.cons.injEq] at h
    exact hp (KeyPrefix.toU8_inj h.2.1)
  · intro kp s1 s2 hs h
    simp only [bytes_to_key, List.cons_append, List.nil_append,
      List.cons.injEq] at h
    exact hs h.2.2
  · intro p1 p2 a1 a2 hp h
    simp only [address_to_key, List.cons.injEq] at h
    exact hp (KeyPrefix.toU8_inj h.2.1)
  · intro kp a1 a2 ha h
    simp only [address_to_key, List.cons.injEq] at h
    exact ha h.2.2
  · intro kp a1 a2 k hp h
    simp only [address_to_key, storage_to_key, List.cons.injEq] at h
    exact hp (KeyPrefix.toU8_inj h.2.1)
  · intro kp a1 a2 k g hp h
    simp only [address_to_key, storage_to_key_nonced, List.cons.injEq] at h
    exact hp (KeyPrefix.toU8_inj h.2.1)
  · intro a1 a2 k1 k2 h1 h2 hne h
    simp only [storage_to_key, List.cons.injEq, true_and] at h
    obtain ⟨ha, hk⟩ := List.append_inj h (h1.trans h2.symm)
    rcases hne with hne | hne <;> exact hne (by assumption)
  · intro a1 a2 k1 k2 g1 g2 h1 h2 hg1 hg2 hne h
    simp only [storage_to_key_nonced, List.cons.injEq, true_and] at h
    obtain ⟨ha, hrest⟩ := List.append_inj
      (by simpa [List.append_assoc] using h) (h1.trans h2.symm)
    obtain ⟨hle, hk⟩ := List.append_inj hrest
      ((u32_to_le_bytes_length g1).trans (u32_to_le_bytes_length g2).symm)
    have hg := u32_to_le_bytes_inj hg1 hg2 hle
    rcases hne with hne | hne | hne <;> exact hne (by assumption)
  · intro a1 a2 k1 k2 g h1 h2 hk1 hk2 h
    have := congrArg List.length h
    simp [storage_to_key, storage_to_key_nonced, u32_to_le_bytes,
      h1, h2, hk1, hk2] at this

/-- C1: for every address and provided nonce, `check_nonce` fails with the
stale-nonce error when the provided nonce differs from the account's current
stored nonce; on success it persists `current_nonce + 1` for that account
(leaving every other account untouched) and returns it. -/
theorem check_nonce_stale_or_increment (nonces : EthAddress → Nat)
    (address : EthAddress) (provided : Nat) :
    (provided ≠ nonces address →
      check_nonce nonces address provided = .error .incorrectNonce) ∧
    (provided = nonces address →
      ∃ nonces2, check_nonce nonces address provided =
          .ok (nonces address + 1, nonces2) ∧
        nonces2 address = nonces address + 1 ∧
        ∀ a, a ≠ address → nonces2 a = nonces a) := by
  constructor
  · intro h
    simp [check_nonce, h]
  · intro h
    refine ⟨fun a => if a = address then nonces address + 1 else nonces a,
      ?_, by simp, fun a ha => by simp [ha]⟩
    simp [check_nonce, h]

/-- C2: in `submit`, every admitted transaction with `to = Some(receiver)`
and empty data (a plain value transfer) persists the incremented nonce via
an explicit `Engine::set_nonce` strictly before the balance transfer; every
admitted transaction with non-empty data or `to = None` performs no explicit
`set_nonce` at all (the interpreter's internal bookkeeping is relied on). -/
theorem submit_nonce_anchoring (state : EngineStateM)
    (nonces : EthAddress → Nat) (tx : EthSignedTransactionM)
    (sender : EthAddress)
    (hc : tx.chain_id = none ∨ tx.chain_id = some state.chain_id)
    (hs : tx.sender = some sender)
    (hn : tx.transaction.nonce = nonces sender) :
    (∀ receiver, tx.transaction.to_address = some receiver →
      tx.transaction.data = [] →
      ∃ i j, i < j ∧
        (submit state nonces (some tx)).actions.get? i =
          some (.setNonce sender (nonces sender + 1)) ∧
        (submit state nonces (some tx)).actions.get? j =
          some (.transfer sender receiver tx.transaction.value)) ∧
    ((tx.transaction.data ≠ [] ∨ tx.transaction.to_address = none) →
      ∀ a n, EngineAction.setNonce a n ∉ (submit state nonces (some tx)).actions) := by
  have hsub : submit state nonces (some tx) = submitAuthed nonces tx := by
    rcases hc with hc | hc <;> simp [submit, hc]
  rw [hsub]
  constructor
  · intro receiver hto hdata
    exact ⟨1, 2, by omega,
      by simp [submitAuthed, hs, hn, hto, hdata],
      by simp [submitAuthed, hs, hn, hto, hdata]⟩
  · intro hshape a n
    rcases hshape with hdata | hto
    · rcases hto2 : tx.transaction.to_address with _ | receiver <;>
        simp [submitAuthed, hs, hn, hto2, hdata]
    · simp [submitAuthed, hs, hn, hto]

/-- Closed instance of C2: a concrete transfer transaction shows the
explicit `set_nonce` ahead of the transfer, and a concrete call transaction
shows no explicit `set_nonce`. -/
theorem submit_nonce_anchoring_witness :
    (∃ i j, i < j ∧
      (submit ⟨[], [], 1, 0⟩ (fun _ => 0)
        (some ⟨⟨0, some [2], 5, []⟩, none, some [1]⟩)).actions.get? i =
        some (.setNonce [1] 1) ∧
      (submit ⟨[], [], 1, 0⟩ (fun _ => 0)
        (some ⟨⟨0, some [2], 5, []⟩, none, some [1]⟩)).actions.get? j =
        some (.transfer [1] [2] 5)) ∧
    (∀ a n, EngineAction.setNonce a n ∉
      (submit ⟨[], [], 1, 0⟩ (fun _ => 0)
        (some ⟨⟨0, some [2], 5, [9]⟩, none, some [1]⟩)).actions) := by
  constructor
  · exact (submit_nonce_anchoring ⟨[], [], 1, 0⟩ (fun _ => 0)
      ⟨⟨0, some [2], 5, []⟩, none, some [1]⟩ [1]
      (Or.inl rfl) rfl rfl).1 [2] rfl rfl
  · exact (submit_nonce_anchoring ⟨[], [], 1, 0⟩ (fun _ => 0)
      ⟨⟨0, some [2], 5, [9]⟩, none, some [1]⟩ [1]
      (Or.inl rfl) rfl rfl).2 (Or.inl (by simp))

/-- C3: `deploy_upgrade` rejects with `ERR_NOT_ALLOWED:TOO_EARLY` exactly
when the current block index is at most `staged_at + upgrade_delay_blocks`,
and at any later block it succeeds, replacing the running contract code
with the staged blob. -/
theorem deploy_upgrade_timing (state : EngineStateM) (staged_at : Nat)
    (staged_code : List Nat) (current_block : Nat) :
    (deploy_upgrade state (some (staged_at, staged_code)) current_block =
        .error .tooEarly ↔
      current_block ≤ staged_at + state.upgrade_delay_blocks) ∧
    (staged_at + state.upgrade_delay_blocks < current_block →
      deploy_upgrade state (some (staged_at, staged_code)) current_block =
        .ok staged_code) := by
  constructor
  · constructor
    · intro h
      by_contra hlt
      simp [deploy_upgrade, hlt] at h
    · intro h
      simp [deploy_upgrade, h]
  · intro h
    simp [deploy_upgrade, Nat.not_le.mpr h]

/-- C4: in `submit`, a transaction whose signature embeds a chain id
different from the configured one is rejected with `ERR_INVALID_CHAIN_ID`
with no state mutation (empty action list); a transaction without an
embedded chain id skips the check entirely and admission proceeds as
`submitAuthed`. -/
theorem submit_chain_id_binding (state : EngineStateM)
    (nonces : EthAddress → Nat) (tx : EthSignedTransactionM) :
    (∀ cid, tx.chain_id = some cid → cid ≠ state.chain_id →
      submit state nonces (some tx) = ⟨[], some .invalidChainId⟩) ∧
    (tx.chain_id = none →
      submit state nonces (some tx) = submitAuthed nonces tx) := by
  constructor
  · intro cid hcid hne
    simp [submit, hcid, hne]
  · intro hcid
    simp [submit, hcid]

/-- C5: in `submit`, a transaction whose ECDSA sender recovery returns
`None` is rejected with `ERR_INVALID_ECDSA_SIGNATURE` and no state is
mutated (empty action list: no nonce change, no balance or code effect). -/
theorem submit_invalid_signature_rejected (state : EngineStateM)
    (nonces : EthAddress → Nat) (tx : EthSignedTransactionM)
    (hc : tx.chain_id = none ∨ tx.chain_id = some state.chain_id)
    (hs : tx.sender = none) :
    submit state nonces (some tx) = ⟨[], some .invalidEcdsaSignature⟩ := by
  rcases hc with hc | hc <;> simp [submit, submitAuthed, hc, hs]

/-- Closed instance of C5 at a concrete unrecoverable transaction. -/
theorem submit_invalid_signature_rejected_witness :
    submit ⟨[], [], 1, 0⟩ (fun _ => 0) (some ⟨⟨0, none, 0, []⟩, none, none⟩) =
      ⟨[], some .invalidEcdsaSignature⟩ :=
  submit_invalid_signature_rejected ⟨[], [], 1, 0⟩ (fun _ => 0)
    ⟨⟨0, none, 0, []⟩, none, none⟩ (Or.inl rfl) rfl

/-- C8: the `new` entry point is guarded: while the configured owner id is
non-empty, a caller other than the owner is rejected with `ERR_NOT_ALLOWED`
and no state changes; while the owner is unset (empty), any caller may
initialize; a successful call sets the engine configuration from the
parsed arguments. -/
theorem new_owner_guard (state : EngineStateM) (caller : HostBytes)
    (args : Option NewCallArgsM) :
    (state.owner_id ≠ [] → caller ≠ state.owner_id →
      newContract state caller args = .error .notAllowed) ∧
    (state.owner_id = [] → ∀ a, args = some a →
      newContract state caller args = .ok (newCallArgsIntoState a)) ∧
    (caller = state.owner_id → ∀ a, args = some a →
      newContract state caller args = .ok (newCallArgsIntoState a)) := by
  refine ⟨fun how hne => ?_, fun how a ha => ?_, fun hown a ha => ?_⟩
  · have h2 : ¬ state.owner_id = caller := fun h => hne h.symm
    simp [newContract, require_owner_only, how, h2]
  · simp [newContract, how, ha]
  · rcases how : state.owner_id with _ | _ <;>
      simp [newContract, require_owner_only, how, hown, ha, how ▸ hown]

/-- C9: each `meta_call` invocation computes its EIP-712-style domain
separator from the currently configured chain id — the outcome depends on
the authenticator only through its value at `near_erc712_domain
state.chain_id` — and a payload that fails to parse or authenticate is
rejected with `ERR_META_TX_PARSE` with no nonce change or other state
mutation (empty action list). -/
theorem meta_call_domain_and_parse (state : EngineStateM)
    (nonces : EthAddress → Nat)
    (parse1 parse2 : NearDomain → HostBytes → List Nat → Option MetaCallArgsM)
    (current_account_id : HostBytes) (input : List Nat) :
    (parse1 (near_erc712_domain state.chain_id) current_account_id input = none →
      meta_call state nonces parse1 current_account_id input =
        ⟨[], some .metaTxParse⟩) ∧
    (parse1 (near_erc712_domain state.chain_id) current_account_id input =
        parse2 (near_erc712_domain state.chain_id) current_account_id input →
      meta_call state nonces parse1 current_account_id input =
        meta_call state nonces parse2 current_account_id input) := by
  constructor
  · intro h
    simp [meta_call, h]
  · intro h
    simp only [meta_call, h]

end AuroraEngine
